import Mathlib

/-!
Shallow embedding of the file-import app's validation and mapping engine
(`server.js`, `sheetConfig.js`, `routes/export.js`).

The embedding models the JS values and operations that the validation,
mapping, sheet-processing and import-filtering code manipulates.  Machine
floats are modelled by `ℚ` (the program only compares parsed numbers with
`<`), JS `NaN` is the distinguished value `Value.nan`, and the fallible
parsers return `Option`.
-/

/-- Rule type tag: the `type` field of a validation rule in `sheetConfig.js`
(`'string'`, `'number'` or `'date'`). -/
inductive RType where
  | string
  | number
  | date
deriving DecidableEq, Repr

/-- A JS runtime value as it occurs in this program: spreadsheet cell
contents, row-object fields and mapped-row fields.  `nan` is the JS number
`NaN` (the result of a failed `parseFloat`); `date y m d` is a valid JS
`Date` carrying year, 1-based month and day; `invalidDate` is a JS
`Invalid Date` object (a `Date` whose time value is `NaN`). -/
inductive Value where
  | undef
  | null
  | str (s : String)
  | num (q : ℚ)
  | nan
  | bool (b : Bool)
  | date (y : Int) (m : Nat) (d : Nat)
  | invalidDate
deriving DecidableEq, Repr

/-- One validation rule of `sheetConfig.js` (`required`, `type`, `min`,
`currentMonth`, `allowedValues`); absent JS fields are `none` / `false`. -/
structure Rule where
  required : Bool
  type : Option RType
  min : Option ℚ
  currentMonth : Bool
  allowedValues : Option (List String)
deriving DecidableEq, Repr

/-- A sheet configuration (`sheetConfig.js`): the `columnMapping` object
(Excel column name, database field name) and the `validationRules` object
(column name, rule), each kept in declaration order, the order JS `for..in`
and `Object.entries` iterate string keys of these objects. -/
structure Config where
  columnMapping : List (String × String)
  validationRules : List (String × Rule)
deriving DecidableEq, Repr

/-- An error record pushed into `validationErrors[sheetName]` in
`server.js`: `{ row, error }`. -/
structure ErrorDescriptor where
  row : Nat
  error : String
deriving DecidableEq, Repr

/-- The evaluation instant of `validateRow`: the `now.getMonth()` (0-based)
and `now.getFullYear()` values read at the top of the function.  `validateRow`
is parameterised by it instead of reading a wall clock. -/
structure Instant where
  month : Nat
  year : Int
deriving DecidableEq, Repr

/-- A JS object with `Value` fields, as an association list in key-insertion
order (JS objects with string keys preserve insertion order). -/
abbrev Obj := List (String × Value)

/-- Property lookup on a JS-object association list: the first binding of
the key, `none` when absent. -/
def lookupAssoc {κ α : Type} [BEq κ] (o : List (κ × α)) (k : κ) : Option α :=
  (o.find? (fun p => p.1 == k)).map (fun p => p.2)

/-- Reading `o[k]` on a JS object: an absent property reads as `undefined`. -/
def objGet (o : Obj) (k : String) : Value :=
  (lookupAssoc o k).getD Value.undef

/-- Writing `o[k] = v` on a JS object: an existing property is overwritten in
place (key order preserved), a new property is appended at the end. -/
def objUpsert {κ α : Type} [BEq κ] (o : List (κ × α)) (k : κ) (v : α) : List (κ × α) :=
  if o.any (fun p => p.1 == k) then
    o.map (fun p => if p.1 == k then (k, v) else p)
  else o ++ [(k, v)]

/-- The test `value === undefined || value === null || value === ''` used by
`validateRow` (lines 57 and 61 of `server.js`). -/
def isEmptyJS : Value → Bool
  | .undef => true
  | .null => true
  | .str s => s == ""
  | _ => false

/-- JS truthiness of a value, as used by `if (rowObject[excelColumn])`,
`row.name` and similar guards: `undefined`, `null`, `''`, `0`, `NaN` and
`false` are falsy; objects (`Date`s, even invalid ones) are truthy. -/
def truthy : Value → Bool
  | .undef => false
  | .null => false
  | .str s => s != ""
  | .num q => q != 0
  | .nan => false
  | .bool b => b
  | .date _ _ _ => true
  | .invalidDate => true

/-- JS strict equality `v === s` against a string `s` (the only strict
comparisons the program performs are against string constants, in
`Array.prototype.includes`). -/
def strictEqStr (v : Value) (s : String) : Bool :=
  match v with
  | .str t => t == s
  | _ => false

/-- Longest leading run of decimal digits of a character list, with the
remainder. -/
def takeDigits : List Char → (List Char × List Char)
  | [] => ([], [])
  | c :: cs =>
    if c.isDigit then
      let r := takeDigits cs
      (c :: r.1, r.2)
    else ([], c :: cs)

/-- Numeric value of a list of decimal digit characters. -/
def digitsVal (cs : List Char) : Nat :=
  cs.foldl (fun a c => a * 10 + (c.toNat - 48)) 0

/-- JS `parseFloat` on a character sequence: skip leading whitespace, read an
optional sign and the longest prefix shaped `digits [. digits]` (at least one
digit), ignore the rest; `none` models `NaN`.  Exponent suffixes and
`Infinity`, which this app's data never uses, are outside the modelled
domain. -/
def parseFloatCore (cs : List Char) : Option ℚ :=
  let cs1 := cs.dropWhile (fun c => c == ' ' || c == '\t' || c == '\n' || c == '\r')
  let sr : (Bool × List Char) :=
    match cs1 with
    | '-' :: r => (true, r)
    | '+' :: r => (false, r)
    | r => (false, r)
  let ip := takeDigits sr.2
  let fp : (List Char × List Char) :=
    match ip.2 with
    | '.' :: r => takeDigits r
    | _ => ([], [])
  if ip.1.isEmpty && fp.1.isEmpty then none
  else
    let mag : Int := ((digitsVal ip.1) * 10 ^ fp.1.length + digitsVal fp.1 : Nat)
    some (Rat.divInt (if sr.1 then -mag else mag) ((10 : Nat) ^ fp.1.length))

/-- JS `parseFloat(value)` on a program value: numbers pass through, strings
are parsed, and every other value (whose string coercion has no numeric
prefix: `undefined`, `null`, booleans, `Date`s, `NaN`) gives `NaN`
(`none`). -/
def parseFloatVal : Value → Option ℚ
  | .num q => some q
  | .str s => parseFloatCore s.toList
  | _ => none

/-- Gregorian leap-year test. -/
def isLeapYear (y : Int) : Bool :=
  (y % 4 == 0 && y % 100 != 0) || y % 400 == 0

/-- Number of days of month `m` (1-based) of year `y`. -/
def daysInMonth (y : Int) (m : Nat) : Nat :=
  if m == 2 then (if isLeapYear y then 29 else 28)
  else if m == 4 || m == 6 || m == 9 || m == 11 then 30
  else 31

/-- Parse a plain ISO `YYYY-MM-DD` date string into (year, 1-based month,
day), validating the calendar as the JS `Date` parser does (for example
`2024-02-30` is rejected). -/
def parseISODate (s : String) : Option (Int × Nat × Nat) :=
  match s.toList with
  | [y1, y2, y3, y4, c1, m1, m2, c2, d1, d2] =>
    if c1 == '-' && c2 == '-' && [y1, y2, y3, y4, m1, m2, d1, d2].all Char.isDigit then
      let y : Int := (digitsVal [y1, y2, y3, y4] : Nat)
      let m := digitsVal [m1, m2]
      let d := digitsVal [d1, d2]
      if 1 ≤ m ∧ m ≤ 12 ∧ 1 ≤ d ∧ d ≤ daysInMonth y m then some (y, m, d) else none
    else none
  | _ => none

/-- JS `new Date(value)` restricted to the value shapes this app feeds it: a
`Date` cell passes through; a string parses as a plain ISO `YYYY-MM-DD` date
(the parser's wider string formats and numeric epoch-millisecond inputs are
outside the modelled input domain); everything else yields an invalid date
(`none`).  A valid result is (year, 1-based month, day). -/
def parseDateVal : Value → Option (Int × Nat × Nat)
  | .date y m d => some (y, m, d)
  | .str s => parseISODate s
  | _ => none

/-- Shared shape of every `validateRow` error message:
`Row {n}: "{col}" ` followed by a check-specific rest. -/
def msgCore (n : Nat) (col : String) (rest : String) : String :=
  "Row " ++ toString n ++ ": \"" ++ col ++ "\" " ++ rest

/-- Message `Row {n}: "{col}" is required.` (line 58 of `server.js`). -/
def requiredMsg (n : Nat) (col : String) : String := msgCore n col "is required."

/-- Message `Row {n}: "{col}" must be numeric.` (line 69). -/
def numericMsg (n : Nat) (col : String) : String := msgCore n col "must be numeric."

/-- Message `Row {n}: "{col}" must be greater than {min}.` (line 71). -/
def minMsg (n : Nat) (col : String) (m : ℚ) : String :=
  msgCore n col ("must be greater than " ++ toString m ++ ".")

/-- Message `Row {n}: "{col}" must be a valid date.` (line 76). -/
def validDateMsg (n : Nat) (col : String) : String := msgCore n col "must be a valid date."

/-- Message `Row {n}: "{col}" must be within the current month.` (line 79). -/
def currentMonthMsg (n : Nat) (col : String) : String :=
  msgCore n col "must be within the current month."

/-- Message `Row {n}: "{col}" must be a string.` (line 85). -/
def stringMsg (n : Nat) (col : String) : String := msgCore n col "must be a string."

/-- Message `Row {n}: "{col}" must be one of {allowedValues.join(', ')}.`
(line 90). -/
def allowedMsg (n : Nat) (col : String) (l : List String) : String :=
  msgCore n col ("must be one of " ++ String.intercalate ", " l ++ ".")

/-- The type-directed checks of `validateRow` for one column (lines 66-87 of
`server.js`): the `number`, `date` and `string` branches; a rule with no
`type` field (such as `Verified`) runs none of them. -/
def typeErrors (now : Instant) (n : Nat) (col : String) (rule : Rule) (value : Value) :
    List String :=
  match rule.type with
  | some .number =>
    match parseFloatVal value with
    | none => [numericMsg n col]
    | some q =>
      match rule.min with
      | some m => if q < m then [minMsg n col m] else []
      | none => []
  | some .date =>
    match parseDateVal value with
    | none => [validDateMsg n col]
    | some ymd =>
      if rule.currentMonth then
        if ymd.2.1 - 1 ≠ now.month ∨ ymd.1 ≠ now.year then [currentMonthMsg n col] else []
      else []
  | some .string =>
    match value with
    | .str _ => []
    | _ => [stringMsg n col]
  | none => []

/-- The `allowedValues` check of `validateRow` (lines 88-91 of `server.js`),
run after the type branch for every non-empty value; a defined
`allowedValues` array is truthy even when empty. -/
def allowedErrors (n : Nat) (col : String) (rule : Rule) (value : Value) : List String :=
  match rule.allowedValues with
  | some l => if l.any (fun s => strictEqStr value s) then [] else [allowedMsg n col l]
  | none => []

/-- All checks of `validateRow` for one column (the body of the
`for (const col in rules)` loop, lines 52-92 of `server.js`): the
required-and-empty early `continue`, the empty-and-optional early `continue`,
then the type checks followed by the `allowedValues` check. -/
def checkColumn (now : Instant) (n : Nat) (col : String) (rule : Rule) (value : Value) :
    List String :=
  if rule.required && isEmptyJS value then [requiredMsg n col]
  else if isEmptyJS value then []
  else typeErrors now n col rule value ++ allowedErrors n col rule value

/-- `validateRow(rowData, config, rowNumber)` of `server.js` (lines 45-94),
with the evaluation instant passed explicitly: the concatenation, in rule
declaration order, of each column's errors. -/
def validateRow (rowData : Obj) (config : Config) (rowNumber : Nat) (now : Instant) :
    List String :=
  (config.validationRules.map (fun p =>
    checkColumn now rowNumber p.1 p.2 (objGet rowData p.1))).flatten

/-- The `type` of the validation rule of `excelColumn`, read by the mapper
(`config.validationRules[excelColumn].type`, lines 176 and 180).  A mapping
key with no rule makes the JS code throw; the model returns `none` (no
coercion) there, a case unreachable under `WFConfig`. -/
def ruleTypeOf (cfg : Config) (excelColumn : String) : Option RType :=
  match lookupAssoc cfg.validationRules excelColumn with
  | some r => r.type
  | none => none

/-- `new Date(rowObject[excelColumn])` as stored by the mapper (line 177):
a parseable value becomes a valid `Date`, anything else an `Invalid Date`
object. -/
def dateCoerce (v : Value) : Value :=
  match parseDateVal v with
  | some ymd => Value.date ymd.1 ymd.2.1 ymd.2.2
  | none => Value.invalidDate

/-- `parseFloat(rowObject[excelColumn])` as stored by the mapper (line 181):
an unparseable value becomes `NaN`. -/
def numCoerce (v : Value) : Value :=
  match parseFloatVal v with
  | some q => Value.num q
  | none => Value.nan

/-- Net value stored in `mappedRow[dbField]` by lines 174-182 of `server.js`:
the raw value, replaced by a `Date` when the column's rule type is `date` and
the raw value is truthy, then replaced by a parsed number when the rule type
is `number` and the raw value is truthy. -/
def coerceField (cfg : Config) (excelColumn : String) (v : Value) : Value :=
  let v1 := if ruleTypeOf cfg excelColumn == some RType.date && truthy v then dateCoerce v else v
  if ruleTypeOf cfg excelColumn == some RType.number && truthy v then numCoerce v else v1

/-- The row mapper (lines 171-184 of `server.js`): fold over
`Object.entries(config.columnMapping)` assigning
`mappedRow[dbField] = coerced value of rowObject[excelColumn]`. -/
def mapRow (rowObject : Obj) (cfg : Config) : Obj :=
  cfg.columnMapping.foldl (fun mapped p =>
    objUpsert mapped p.2 (coerceField cfg p.1 (objGet rowObject p.1))) []

/-- One spreadsheet row as ExcelJS exposes it: cell values by 1-based column
number, where position `i` (0-based) is column `i + 1` and `none` is an empty
cell that `eachCell` skips. -/
abbrev Cells := List (Option Value)

/-- One worksheet: its name and its rows, where position `i` (0-based) is
spreadsheet row `i + 1`; row 1 (position 0) is the header row. -/
structure Worksheet where
  name : String
  rows : List Cells
deriving DecidableEq, Repr

/-- The `headers` object built from the header row (lines 126-129 of
`server.js`): column number, header cell value, for each non-empty cell. -/
def headersOf (headerRow : Cells) : List (Nat × Value) :=
  headerRow.enum.filterMap (fun p => p.2.map (fun v => (p.1 + 1, v)))

/-- JS string coercion of a value used as an object key
(`rowObject[header]`).  Only string headers occur in practice; the renderings
of the other shapes are placeholders for the JS `String(value)` coercion and
are not exercised by any claim. -/
def valueKey : Value → String
  | .str s => s
  | .num q => toString q
  | .nan => "NaN"
  | .bool b => if b then "true" else "false"
  | .null => "null"
  | .undef => "undefined"
  | .date y m d => toString y ++ "-" ++ toString m ++ "-" ++ toString d
  | .invalidDate => "Invalid Date"

/-- The object key `headers[colNumber]` produces when used in
`rowObject[header] = cell.value`: a missing header reads as `undefined`,
which JS coerces to the key `"undefined"`. -/
def headerKey (headers : List (Nat × Value)) (colNumber : Nat) : String :=
  match lookupAssoc headers colNumber with
  | some v => valueKey v
  | none => "undefined"

/-- Building `rowObject` from a data row (lines 157-161 of `server.js`):
for each non-empty cell, `rowObject[headers[colNumber]] = cell.value`. -/
def buildRowObject (headers : List (Nat × Value)) (cells : Cells) : Obj :=
  cells.enum.foldl (fun o p =>
    match p.2 with
    | some v => objUpsert o (headerKey headers (p.1 + 1)) v
    | none => o) []

/-- The `missingColumns` computation (lines 132-137 of `server.js`): the
`columnMapping` keys, in declaration order, that are not strictly equal to
any header cell value. -/
def missingColumns (cfg : Config) (headers : List (Nat × Value)) : List String :=
  (cfg.columnMapping.map (fun p => p.1)).filter
    (fun ec => !((headers.map (fun p => p.2)).any (fun v => strictEqStr v ec)))

/-- The data rows a worksheet's `eachRow` visits after the `rowNumber === 1`
skip: the rows at positions `i ≠ 0`, paired with their position. -/
def dataRowsOf (ws : Worksheet) : List (Nat × Cells) :=
  ws.rows.enum.filter (fun p => p.1 != 0)

/-- Result of processing one sheet: `data = none` when the sheet was skipped
for missing header columns (no `sheetData` entry is created), and the
sheet's error list. -/
structure SheetOutcome where
  data : Option (List Obj)
  errors : List ErrorDescriptor
deriving DecidableEq, Repr

/-- Body of the `eachRow` callback for one data row at position `p.1`
(spreadsheet row `p.1 + 1`), lines 152-185 of `server.js`: build the row
object, append the validation errors as `{row, error}` records, and append
the mapped row to the sheet's data — unconditionally. -/
def rowStep (cfg : Config) (now : Instant) (headers : List (Nat × Value))
    (acc : List Obj × List ErrorDescriptor) (p : Nat × Cells) :
    List Obj × List ErrorDescriptor :=
  let rowNumber := p.1 + 1
  let ro := buildRowObject headers p.2
  let rerrs := validateRow ro cfg rowNumber now
  (acc.1 ++ [mapRow ro cfg],
   acc.2 ++ rerrs.map (fun msg => ErrorDescriptor.mk rowNumber msg))

/-- Processing one worksheet (the `eachSheet` callback, lines 116-190 of
`server.js`): if any required column is missing from the header, emit the
single row-1 error and skip the sheet (no data entry); otherwise fold
`rowStep` over the data rows.  The final
`if (validationErrors[sheetName].length === 0) delete ...` of the source is
applied when the outcome is merged by `sheetStep`. -/
def processSheet (cfg : Config) (now : Instant) (ws : Worksheet) : SheetOutcome :=
  let headers := headersOf (ws.rows.headD [])
  let missing := missingColumns cfg headers
  if missing.isEmpty then
    let r := (dataRowsOf ws).foldl (rowStep cfg now headers) ([], [])
    SheetOutcome.mk (some r.1) r.2
  else
    SheetOutcome.mk none
      [ErrorDescriptor.mk 1 ("Missing required columns: " ++ String.intercalate ", " missing)]

/-- Aggregated output of the upload endpoint: `sheetNames`, `sheetData` and
`validationErrors` (lines 111-113 and 194-198 of `server.js`), the two
objects as association lists in key-insertion order. -/
structure UploadResult where
  sheetNames : List String
  sheetData : List (String × List Obj)
  validationErrors : List (String × List ErrorDescriptor)
deriving DecidableEq, Repr

/-- Merging one sheet's outcome into the aggregate: the name is always
pushed; a `sheetData` entry exists only when the sheet was processed; a
`validationErrors` entry exists only when the sheet ended with at least one
error (the source's delete-if-empty, line 188). -/
def sheetStep (cfg : Config) (now : Instant) (acc : UploadResult) (ws : Worksheet) :
    UploadResult :=
  let o := processSheet cfg now ws
  UploadResult.mk
    (acc.sheetNames ++ [ws.name])
    (match o.data with
     | some d => objUpsert acc.sheetData ws.name d
     | none => acc.sheetData)
    (if o.errors.isEmpty then acc.validationErrors
     else objUpsert acc.validationErrors ws.name o.errors)

/-- The whole upload pipeline over a parsed workbook (`workbook.eachSheet`):
fold `sheetStep` over the worksheets in workbook order. -/
def processUpload (cfg : Config) (now : Instant) (sheets : List Worksheet) : UploadResult :=
  sheets.foldl (sheetStep cfg now) (UploadResult.mk [] [] [])

/-- The import filter for one sheet (lines 229-236 of `server.js`): build the
set of row numbers that appear in the sheet's error list, then keep the row
at 0-based index `i` iff its spreadsheet row number `i + 2` is not in that
set and `row.name` is truthy. -/
def selectRows (rows : List Obj) (errs : List ErrorDescriptor) : List Obj :=
  let errorRows := (errs.map ErrorDescriptor.row).dedup
  (rows.enum.filter (fun p =>
    !errorRows.contains (p.1 + 2) && truthy (objGet p.2 "name"))).map (fun p => p.2)

/-- The `default` sheet configuration of `sheetConfig.js`. -/
def defaultConfig : Config :=
  Config.mk
    [("Name", "name"), ("Amount", "amount"), ("Date", "date"), ("Verified", "verified")]
    [("Name", Rule.mk true (some RType.string) none false none),
     ("Amount", Rule.mk true (some RType.number) (some (mkRat 1 100)) false none),
     ("Date", Rule.mk true (some RType.date) none true none),
     ("Verified", Rule.mk false none none false (some ["Yes", "No"]))]

/-- Well-formedness convention of `sheetConfig.js` (spec §3): every
`columnMapping` key has a validation rule.  On a config violating it the JS
mapper would throw reading `.type` of `undefined`. -/
def WFConfig (cfg : Config) : Prop :=
  ∀ p ∈ cfg.columnMapping, (lookupAssoc cfg.validationRules p.1).isSome

/-- Modelled from the spec, §4.5 `selectImportable`: include the row at
0-based index `i` iff row number `i + 2` is not among the row numbers of the
sheet's error list and the row's canonical `name` field is truthy. -/
def selectImportableSpec (rows : List Obj) (errs : List ErrorDescriptor) : List Obj :=
  rows.enum.filterMap (fun p =>
    if (p.1 + 2) ∉ errs.map ErrorDescriptor.row ∧ truthy (objGet p.2 "name")
    then some p.2 else none)

/-! ### Message-shape lemmas

The checks of `validateRow` emit messages of pairwise-distinguishable
shapes; these lemmas let a membership proof separate the `allowedValues`
message from the type-check messages. -/

theorem msgCore_inj (n : Nat) (col : String) {r1 r2 : String}
    (h : msgCore n col r1 = msgCore n col r2) : r1 = r2 := by
  unfold msgCore at h
  have h2 := congrArg String.data h
  simp only [String.data_append, List.append_assoc] at h2
  exact String.ext
    (List.append_cancel_left (List.append_cancel_left (List.append_cancel_left
      (List.append_cancel_left (List.append_cancel_left h2)))))

theorem numericMsg_ne_allowedMsg (n : Nat) (col : String) (l : List String) :
    numericMsg n col ≠ allowedMsg n col l := by
  intro h
  simp only [numericMsg, allowedMsg] at h
  have h1 := congrArg String.data (msgCore_inj n col h)
  simp only [String.data_append] at h1
  simp at h1

theorem minMsg_ne_allowedMsg (n : Nat) (col : String) (m : ℚ) (l : List String) :
    minMsg n col m ≠ allowedMsg n col l := by
  intro h
  simp only [minMsg, allowedMsg] at h
  have h1 := congrArg String.data (msgCore_inj n col h)
  simp only [String.data_append] at h1
  simp at h1

theorem validDateMsg_ne_allowedMsg (n : Nat) (col : String) (l : List String) :
    validDateMsg n col ≠ allowedMsg n col l := by
  intro h
  simp only [validDateMsg, allowedMsg] at h
  have h1 := congrArg String.data (msgCore_inj n col h)
  simp only [String.data_append] at h1
  simp at h1

theorem currentMonthMsg_ne_allowedMsg (n : Nat) (col : String) (l : List String) :
    currentMonthMsg n col ≠ allowedMsg n col l := by
  intro h
  simp only [currentMonthMsg, allowedMsg] at h
  have h1 := congrArg String.data (msgCore_inj n col h)
  simp only [String.data_append] at h1
  simp at h1

theorem stringMsg_ne_allowedMsg (n : Nat) (col : String) (l : List String) :
    stringMsg n col ≠ allowedMsg n col l := by
  intro h
  simp only [stringMsg, allowedMsg] at h
  have h1 := congrArg String.data (msgCore_inj n col h)
  simp only [String.data_append] at h1
  simp at h1

/-- The `allowedValues` message of a column is never produced by its type
branch. -/
theorem allowedMsg_not_mem_typeErrors (now : Instant) (n : Nat) (col : String) (rule : Rule)
    (v : Value) (l : List String) : allowedMsg n col l ∉ typeErrors now n col rule v := by
  cases htype : rule.type with
  | none => simp [typeErrors, htype]
  | some t =>
    cases t with
    | number =>
      cases hp : parseFloatVal v with
      | none => simp [typeErrors, htype, hp, (numericMsg_ne_allowedMsg n col l).symm]
      | some q =>
        cases hm : rule.min with
        | none => simp [typeErrors, htype, hp, hm]
        | some m =>
          simp only [typeErrors, htype, hp, hm]
          split
          · simp [(minMsg_ne_allowedMsg n col m l).symm]
          · simp
    | date =>
      cases hp : parseDateVal v with
      | none => simp [typeErrors, htype, hp, (validDateMsg_ne_allowedMsg n col l).symm]
      | some ymd =>
        simp only [typeErrors, htype, hp]
        split
        · split
          · simp [(currentMonthMsg_ne_allowedMsg n col l).symm]
          · simp
        · simp
    | string =>
      cases v <;> simp [typeErrors, htype, (stringMsg_ne_allowedMsg n col l).symm]

/-- The min-check message of a column is never produced by its
`allowedValues` check. -/
theorem minMsg_not_mem_allowedErrors (n : Nat) (col : String) (m : ℚ) (rule : Rule)
    (v : Value) : minMsg n col m ∉ allowedErrors n col rule v := by
  cases ha : rule.allowedValues with
  | none => simp [allowedErrors, ha]
  | some l =>
    simp only [allowedErrors, ha]
    split
    · simp
    · simp [minMsg_ne_allowedMsg n col m l]

/-- The current-month message of a column is never produced by its
`allowedValues` check. -/
theorem currentMonthMsg_not_mem_allowedErrors (n : Nat) (col : String) (rule : Rule)
    (v : Value) : currentMonthMsg n col ∉ allowedErrors n col rule v := by
  cases ha : rule.allowedValues with
  | none => simp [allowedErrors, ha]
  | some l =>
    simp only [allowedErrors, ha]
    split
    · simp
    · simp [currentMonthMsg_ne_allowedMsg n col l]

/-- C1: for every row, config, and row number, if a column's rule is
`required` and the row's value for it is absent, `null` or the empty string,
the column's checks produce exactly the error `Row {n}: "{col}" is required.`
and nothing else (no type, min or allowedValues error for that column), and
`validateRow` reports that error for the row. -/
theorem validate_required_empty
    (row : Obj) (cfg : Config) (n : Nat) (now : Instant) (col : String) (rule : Rule)
    (hmem : (col, rule) ∈ cfg.validationRules)
    (hreq : rule.required = true)
    (hempty : isEmptyJS (objGet row col) = true) :
    checkColumn now n col rule (objGet row col) = [requiredMsg n col] ∧
    requiredMsg n col ∈ validateRow row cfg n now := by
  have hc : checkColumn now n col rule (objGet row col) = [requiredMsg n col] := by
    simp [checkColumn, hreq, hempty]
  refine ⟨hc, ?_⟩
  unfold validateRow
  rw [List.mem_flatten]
  exact ⟨[requiredMsg n col], List.mem_map.mpr ⟨(col, rule), hmem, hc⟩,
    List.mem_singleton_self _⟩

/-- Witness for C1 at the spec's scenario: row 2 with an empty `Name` under
the default config, evaluated in January 2024. -/
theorem validate_required_empty_witness :
    checkColumn (Instant.mk 0 2024) 2 "Name"
        (Rule.mk true (some RType.string) none false none)
        (objGet [("Name", Value.str ""), ("Amount", Value.num 5)] "Name") =
      [requiredMsg 2 "Name"] ∧
    requiredMsg 2 "Name" ∈
      validateRow [("Name", Value.str ""), ("Amount", Value.num 5)] defaultConfig 2
        (Instant.mk 0 2024) :=
  validate_required_empty [("Name", Value.str ""), ("Amount", Value.num 5)] defaultConfig 2
    (Instant.mk 0 2024) "Name" (Rule.mk true (some RType.string) none false none)
    (by decide) rfl (by decide)

/-- C2: for a number-typed rule with `min = m` and a present value that
parses to `q`, the column's checks contain the error
`Row {n}: "{col}" must be greater than {m}.` iff `q < m` (so no min error is
emitted when `q ≥ m`), and when `q < m` and the rule belongs to the config,
`validateRow` reports the error for the row. -/
theorem validate_min_iff
    (row : Obj) (cfg : Config) (n : Nat) (now : Instant) (col : String) (rule : Rule)
    (q m : ℚ)
    (htype : rule.type = some RType.number)
    (hmin : rule.min = some m)
    (hempty : isEmptyJS (objGet row col) = false)
    (hparse : parseFloatVal (objGet row col) = some q) :
    (minMsg n col m ∈ checkColumn now n col rule (objGet row col) ↔ q < m) ∧
    ((col, rule) ∈ cfg.validationRules → q < m →
      minMsg n col m ∈ validateRow row cfg n now) := by
  have hck : checkColumn now n col rule (objGet row col) =
      (if q < m then [minMsg n col m] else []) ++
        allowedErrors n col rule (objGet row col) := by
    simp [checkColumn, hempty, typeErrors, htype, hparse, hmin]
  have hiff : minMsg n col m ∈ checkColumn now n col rule (objGet row col) ↔ q < m := by
    rw [hck]
    constructor
    · intro hmemmsg
      rcases List.mem_append.mp hmemmsg with h1 | h2
      · by_contra hlt
        rw [if_neg hlt] at h1
        exact absurd h1 (List.not_mem_nil _)
      · exact absurd h2 (minMsg_not_mem_allowedErrors n col m rule _)
    · intro hlt
      rw [if_pos hlt]
      exact List.mem_append_left _ (List.mem_singleton_self _)
  refine ⟨hiff, fun hmem hlt => ?_⟩
  unfold validateRow
  rw [List.mem_flatten]
  exact ⟨_, List.mem_map.mpr ⟨(col, rule), hmem, rfl⟩, hiff.mpr hlt⟩

/-- Witness for C2 at the spec's scenario: `Amount = -1` in row 3 under the
default config (`min = 0.01`). -/
theorem validate_min_iff_witness :
    ((minMsg 3 "Amount" (mkRat 1 100) ∈
        checkColumn (Instant.mk 0 2024) 3 "Amount"
          (Rule.mk true (some RType.number) (some (mkRat 1 100)) false none)
          (objGet [("Amount", Value.num (-1))] "Amount")) ↔ ((-1 : ℚ) < mkRat 1 100)) ∧
    (("Amount", Rule.mk true (some RType.number) (some (mkRat 1 100)) false none) ∈
        defaultConfig.validationRules → ((-1 : ℚ) < mkRat 1 100) →
      minMsg 3 "Amount" (mkRat 1 100) ∈
        validateRow [("Amount", Value.num (-1))] defaultConfig 3 (Instant.mk 0 2024)) :=
  validate_min_iff [("Amount", Value.num (-1))] defaultConfig 3 (Instant.mk 0 2024)
    "Amount" (Rule.mk true (some RType.number) (some (mkRat 1 100)) false none)
    (-1) (mkRat 1 100) rfl rfl (by decide) (by decide)

/-- C5: for a present value and a rule defining `allowedValues = l` — of any
type — the column's checks contain the error
`Row {n}: "{col}" must be one of {l joined}.` iff the value is not strictly
equal to a member of `l`; the type branch never produces that message, so it
comes in addition to any type error of the same column.  When the rule
belongs to the config, `validateRow` reports it for the row. -/
theorem validate_allowed_iff
    (row : Obj) (cfg : Config) (n : Nat) (now : Instant) (col : String) (rule : Rule)
    (l : List String)
    (hallow : rule.allowedValues = some l)
    (hempty : isEmptyJS (objGet row col) = false) :
    (allowedMsg n col l ∈ checkColumn now n col rule (objGet row col) ↔
      l.any (fun s => strictEqStr (objGet row col) s) = false) ∧
    ((col, rule) ∈ cfg.validationRules →
      l.any (fun s => strictEqStr (objGet row col) s) = false →
      allowedMsg n col l ∈ validateRow row cfg n now) := by
  have hck : checkColumn now n col rule (objGet row col) =
      typeErrors now n col rule (objGet row col) ++
        (if l.any (fun s => strictEqStr (objGet row col) s) then []
         else [allowedMsg n col l]) := by
    simp [checkColumn, hempty, allowedErrors, hallow]
  have hiff : allowedMsg n col l ∈ checkColumn now n col rule (objGet row col) ↔
      l.any (fun s => strictEqStr (objGet row col) s) = false := by
    rw [hck]
    constructor
    · intro hmemmsg
      rcases List.mem_append.mp hmemmsg with h1 | h2
      · exact absurd h1 (allowedMsg_not_mem_typeErrors now n col rule _ l)
      · cases hany : l.any (fun s => strictEqStr (objGet row col) s) with
        | false => rfl
        | true =>
          rw [if_pos hany] at h2
          exact absurd h2 (List.not_mem_nil _)
    · intro hany
      simp [hany]
  refine ⟨hiff, fun hmem hany => ?_⟩
  unfold validateRow
  rw [List.mem_flatten]
  exact ⟨_, List.mem_map.mpr ⟨(col, rule), hmem, rfl⟩, hiff.mpr hany⟩

/-- Witness for C5 at the spec's scenario: `Verified = "Maybe"` in row 3
under the default config (`allowedValues = [Yes, No]`, no `type`). -/
theorem validate_allowed_iff_witness :
    ((allowedMsg 3 "Verified" ["Yes", "No"] ∈
        checkColumn (Instant.mk 0 2024) 3 "Verified"
          (Rule.mk false none none false (some ["Yes", "No"]))
          (objGet [("Verified", Value.str "Maybe")] "Verified")) ↔
      (["Yes", "No"].any (fun s =>
        strictEqStr (objGet [("Verified", Value.str "Maybe")] "Verified") s) = false)) ∧
    (("Verified", Rule.mk false none none false (some ["Yes", "No"])) ∈
        defaultConfig.validationRules →
      ["Yes", "No"].any (fun s =>
        strictEqStr (objGet [("Verified", Value.str "Maybe")] "Verified") s) = false →
      allowedMsg 3 "Verified" ["Yes", "No"] ∈
        validateRow [("Verified", Value.str "Maybe")] defaultConfig 3 (Instant.mk 0 2024)) :=
  validate_allowed_iff [("Verified", Value.str "Maybe")] defaultConfig 3 (Instant.mk 0 2024)
    "Verified" (Rule.mk false none none false (some ["Yes", "No"])) ["Yes", "No"]
    rfl (by decide)

/-- C6: for a date-typed rule with `currentMonth = true` and a present value
that parses to the date (y, m, d): when the date's 0-based month `m - 1` or
year `y` differs from the evaluation instant's, the column's checks contain
the error `Row {n}: "{col}" must be within the current month.` exactly once
(and `validateRow` reports it when the rule belongs to the config); when
month and year both agree, no such error is emitted for the column. -/
theorem validate_currentMonth
    (row : Obj) (cfg : Config) (n : Nat) (now : Instant) (col : String) (rule : Rule)
    (y : Int) (m d : Nat)
    (htype : rule.type = some RType.date)
    (hcm : rule.currentMonth = true)
    (hempty : isEmptyJS (objGet row col) = false)
    (hparse : parseDateVal (objGet row col) = some (y, m, d)) :
    ((m - 1 ≠ now.month ∨ y ≠ now.year) →
      (checkColumn now n col rule (objGet row col)).count (currentMonthMsg n col) = 1 ∧
      ((col, rule) ∈ cfg.validationRules →
        currentMonthMsg n col ∈ validateRow row cfg n now)) ∧
    ((m - 1 = now.month ∧ y = now.year) →
      currentMonthMsg n col ∉ checkColumn now n col rule (objGet row col)) := by
  have hck : checkColumn now n col rule (objGet row col) =
      (if m - 1 ≠ now.month ∨ y ≠ now.year then [currentMonthMsg n col] else []) ++
        allowedErrors n col rule (objGet row col) := by
    simp [checkColumn, hempty, typeErrors, htype, hparse, hcm]
  constructor
  · intro hdiff
    have hone : checkColumn now n col rule (objGet row col) =
        currentMonthMsg n col :: allowedErrors n col rule (objGet row col) := by
      rw [hck, if_pos hdiff]
      rfl
    constructor
    · rw [hone, List.count_cons_self,
        List.count_eq_zero.mpr (currentMonthMsg_not_mem_allowedErrors n col rule _)]
    · intro hmem
      unfold validateRow
      rw [List.mem_flatten]
      exact ⟨_, List.mem_map.mpr ⟨(col, rule), hmem, rfl⟩, by rw [hone]; exact List.mem_cons_self _ _⟩
  · intro heq
    rw [hck, if_neg (by push_neg; exact heq)]
    intro hmem
    exact absurd (List.mem_append.mp hmem).elim
      (fun h => h (fun h1 => absurd h1 (List.not_mem_nil _))
        (fun h2 => absurd h2 (currentMonthMsg_not_mem_allowedErrors n col rule _)))

/-- Witness for C6: a `Date` cell of May 2023 in row 4 under the default
config, evaluated in January 2024: exactly one current-month error, reported
by `validateRow`. -/
theorem validate_currentMonth_witness :
    (checkColumn (Instant.mk 0 2024) 4 "Date"
        (Rule.mk true (some RType.date) none true none)
        (objGet [("Date", Value.date 2023 5 10)] "Date")).count (currentMonthMsg 4 "Date") = 1 ∧
    currentMonthMsg 4 "Date" ∈
      validateRow [("Date", Value.date 2023 5 10)] defaultConfig 4 (Instant.mk 0 2024) := by
  have h := validate_currentMonth [("Date", Value.date 2023 5 10)] defaultConfig 4
    (Instant.mk 0 2024) "Date" (Rule.mk true (some RType.date) none true none)
    2023 5 10 rfl rfl (by decide) (by decide)
  have h1 := h.1 (by decide)
  exact ⟨h1.1, h1.2 (by decide)⟩

/-- Keys after `o[k] = v`: overwriting keeps the key list, inserting appends
the key; as a finite set this is `insert k` of the original key set. -/
theorem map_fst_objUpsert {α : Type} (o : List (String × α)) (k : String) (v : α) :
    ((objUpsert o k v).map (fun p => p.1)).toFinset =
      insert k (o.map (fun p => p.1)).toFinset := by
  unfold objUpsert
  split
  · rename_i h
    rcases List.any_eq_true.mp h with ⟨p, hp, hbeq⟩
    have hkmem : k ∈ o.map (fun p => p.1) :=
      List.mem_map.mpr ⟨p, hp, beq_iff_eq.mp hbeq⟩
    have hmap : (o.map (fun p => if p.1 == k then (k, v) else p)).map (fun p => p.1) =
        o.map (fun p => p.1) := by
      rw [List.map_map]
      refine List.map_congr_left (fun a _ => ?_)
      by_cases hb : a.1 = k
      · simp [hb]
      · simp [hb]
    rw [hmap]
    exact (Finset.insert_eq_self.mpr (List.mem_toFinset.mpr hkmem)).symm
  · rw [List.map_append, List.toFinset_append]
    ext a
    simp [or_comm]

/-- Key set of the mapper's fold: the accumulator's keys joined with the
`columnMapping` values seen so far. -/
theorem map_fst_mapRow_foldl (cfg : Config) (row : Obj) :
    ∀ (l : List (String × String)) (acc : Obj),
      ((l.foldl (fun mapped p =>
          objUpsert mapped p.2 (coerceField cfg p.1 (objGet row p.1))) acc).map
        (fun p => p.1)).toFinset =
        (acc.map (fun p => p.1)).toFinset ∪ (l.map (fun p => p.2)).toFinset := by
  intro l
  induction l with
  | nil => intro acc; simp
  | cons hd tl ih =>
    intro acc
    rw [List.foldl_cons, ih, map_fst_objUpsert]
    ext a
    simp only [Finset.mem_union, Finset.mem_insert, List.map_cons, List.toFinset_cons]
    tauto

/-- C8: `mapRow` is a pure function of (row, config) — the same input yields
the same output — and, for a config whose mapping keys all have validation
rules (the convention `sheetConfig.js` satisfies; a violation would make the
JS mapper throw), the output's key set is exactly the set of values of
`columnMapping`. -/
theorem mapRow_pure_keySet (row : Obj) (cfg : Config) (_hwf : WFConfig cfg) :
    mapRow row cfg = mapRow row cfg ∧
    ((mapRow row cfg).map (fun p => p.1)).toFinset =
      (cfg.columnMapping.map (fun p => p.2)).toFinset := by
  refine ⟨rfl, ?_⟩
  unfold mapRow
  rw [map_fst_mapRow_foldl]
  simp

/-- Witness for C8: a partial row under the default config still maps to an
object keyed by exactly the four canonical field names. -/
theorem mapRow_pure_keySet_witness :
    mapRow [("Name", Value.str "Alice")] defaultConfig =
      mapRow [("Name", Value.str "Alice")] defaultConfig ∧
    ((mapRow [("Name", Value.str "Alice")] defaultConfig).map (fun p => p.1)).toFinset =
      (defaultConfig.columnMapping.map (fun p => p.2)).toFinset :=
  mapRow_pure_keySet [("Name", Value.str "Alice")] defaultConfig
    (by unfold WFConfig; decide)

/-- The data component of the sheet fold is the mapped row of every visited
data row, independent of what the validator returned for it. -/
theorem foldl_rowStep_fst (cfg : Config) (now : Instant) (headers : List (Nat × Value)) :
    ∀ (l : List (Nat × Cells)) (acc : List Obj × List ErrorDescriptor),
      (l.foldl (rowStep cfg now headers) acc).1 =
        acc.1 ++ l.map (fun p => mapRow (buildRowObject headers p.2) cfg) := by
  intro l
  induction l with
  | nil => intro acc; simp
  | cons hd tl ih =>
    intro acc
    rw [List.foldl_cons, ih]
    simp [rowStep]

/-- C7: when no required header column is missing, the sheet's data entry
holds the mapped image of every data row, in order — rows with validation
errors included; having errors never excludes a row from `sheetData`. -/
theorem sheet_rows_all_mapped (cfg : Config) (now : Instant) (ws : Worksheet)
    (_hwf : WFConfig cfg)
    (hmiss : (missingColumns cfg (headersOf (ws.rows.headD []))).isEmpty = true) :
    (processSheet cfg now ws).data =
      some ((dataRowsOf ws).map (fun p =>
        mapRow (buildRowObject (headersOf (ws.rows.headD [])) p.2) cfg)) := by
  simp only [processSheet, hmiss, if_true]
  rw [foldl_rowStep_fst]
  simp

/-- Witness for C7: a sheet whose row 2 violates three rules is still mapped
into `sheetData`. -/
theorem sheet_rows_all_mapped_witness :
    (processSheet defaultConfig (Instant.mk 0 2024)
        (Worksheet.mk "S1"
          [[some (Value.str "Name"), some (Value.str "Amount"), some (Value.str "Date"),
            some (Value.str "Verified")],
           [some (Value.str "Bob"), some (Value.num (-1)), some (Value.str "2023-05-10"),
            some (Value.str "Maybe")]])).data =
      some ((dataRowsOf (Worksheet.mk "S1"
          [[some (Value.str "Name"), some (Value.str "Amount"), some (Value.str "Date"),
            some (Value.str "Verified")],
           [some (Value.str "Bob"), some (Value.num (-1)), some (Value.str "2023-05-10"),
            some (Value.str "Maybe")]])).map (fun p =>
        mapRow (buildRowObject (headersOf ((Worksheet.mk "S1"
          [[some (Value.str "Name"), some (Value.str "Amount"), some (Value.str "Date"),
            some (Value.str "Verified")],
           [some (Value.str "Bob"), some (Value.num (-1)), some (Value.str "2023-05-10"),
            some (Value.str "Maybe")]]).rows.headD [])) p.2) defaultConfig)) :=
  sheet_rows_all_mapped defaultConfig (Instant.mk 0 2024)
    (Worksheet.mk "S1"
      [[some (Value.str "Name"), some (Value.str "Amount"), some (Value.str "Date"),
        some (Value.str "Verified")],
       [some (Value.str "Bob"), some (Value.num (-1)), some (Value.str "2023-05-10"),
        some (Value.str "Maybe")]])
    (by unfold WFConfig; decide) (by decide)

/-- Looking up the written key after `o[k] = v` yields `v`. -/
theorem lookupAssoc_objUpsert_self {α : Type} (o : List (String × α)) (k : String) (v : α) :
    lookupAssoc (objUpsert o k v) k = some v := by
  unfold objUpsert lookupAssoc
  split
  · rename_i h
    induction o with
    | nil => simp at h
    | cons hd tl ih =>
      by_cases hb : hd.1 = k
      · simp [List.find?_cons, hb]
      · have htl : tl.any (fun p => p.1 == k) = true := by
          rcases List.any_eq_true.mp h with ⟨p, hp, hpb⟩
          rcases List.mem_cons.mp hp with rfl | hptl
          · exact absurd (beq_iff_eq.mp hpb) hb
          · exact List.any_eq_true.mpr ⟨p, hptl, hpb⟩
        simpa [List.find?_cons, hb] using ih htl
  · rename_i h
    have hnone : o.find? (fun p => p.1 == k) = none :=
      List.find?_eq_none.mpr (fun x hx hb => h (List.any_eq_true.mpr ⟨x, hx, hb⟩))
    rw [List.find?_append, hnone]
    simp

/-- Helper: overwriting key `k` does not change the lookup of a key `q ≠ k`
on the element-wise rewritten list. -/
theorem find?_upsertMap_other {α : Type} (k q : String) (v : α) (hne : q ≠ k) :
    ∀ (o : List (String × α)),
      Option.map (fun p => p.2)
        ((o.map (fun p => if p.1 == k then (k, v) else p)).find? (fun p => p.1 == q)) =
      Option.map (fun p => p.2) (o.find? (fun p => p.1 == q)) := by
  intro o
  induction o with
  | nil => rfl
  | cons hd tl ih =>
    by_cases hb : hd.1 = k
    · have hrepl : (if hd.1 == k then (k, v) else hd) = (k, v) := by simp [hb]
      have hq1 : (((k, v) : String × α).1 == q) = false := by
        simp [beq_iff_eq]
        exact fun hh => hne hh.symm
      have hq2 : (hd.1 == q) = false := by
        simp [beq_iff_eq, hb]
        exact fun hh => hne hh.symm
      rw [List.map_cons, hrepl, List.find?_cons, List.find?_cons, hq1, hq2]
      exact ih
    · have hrepl : (if hd.1 == k then (k, v) else hd) = hd := by simp [hb]
      rw [List.map_cons, hrepl, List.find?_cons, List.find?_cons]
      cases hdq : (hd.1 == q) with
      | true => rfl
      | false => exact ih

/-- Looking up a different key after `o[k] = v` is unchanged. -/
theorem lookupAssoc_objUpsert_other {α : Type} (o : List (String × α)) (k q : String) (v : α)
    (hne : q ≠ k) : lookupAssoc (objUpsert o k v) q = lookupAssoc o q := by
  unfold objUpsert lookupAssoc
  split
  · exact find?_upsertMap_other k q v hne o
  · rw [List.find?_append]
    have hq : (((k, v) : String × α).1 == q) = false := by
      simp [beq_iff_eq]
      exact fun hh => hne hh.symm
    cases hf : o.find? (fun p => p.1 == q) with
    | none => simp [List.find?_cons, hq]
    | some p => simp

/-- A key occurs among an association list's keys iff its lookup succeeds. -/
theorem mem_keys_iff_lookupAssoc {α : Type} (o : List (String × α)) (k : String) :
    k ∈ o.map (fun p => p.1) ↔ (lookupAssoc o k).isSome := by
  unfold lookupAssoc
  cases hf : o.find? (fun p => p.1 == k) with
  | none =>
    simp only [hf, Option.map_none', Option.isSome_none, Bool.false_eq_true, iff_false]
    intro hmem
    rcases List.mem_map.mp hmem with ⟨p, hp, rfl⟩
    exact absurd (beq_self_eq_true p.1) (by simpa using List.find?_eq_none.mp hf p hp)
  | some p =>
    simp only [hf, Option.map_some', Option.isSome_some, iff_true]
    have hpk : (p.1 == k) = true := @List.find?_some _ (fun p => p.1 == k) p o hf
    exact List.mem_map.mpr ⟨p, List.mem_of_find?_eq_some hf, beq_iff_eq.mp hpk⟩

/-- The names component of the upload fold: every worksheet's name is pushed,
in workbook order. -/
theorem foldl_sheetStep_names (cfg : Config) (now : Instant) :
    ∀ (sheets : List Worksheet) (acc : UploadResult),
      (sheets.foldl (sheetStep cfg now) acc).sheetNames =
        acc.sheetNames ++ sheets.map Worksheet.name := by
  intro sheets
  induction sheets with
  | nil => intro acc; simp
  | cons hd tl ih =>
    intro acc
    rw [List.foldl_cons, ih]
    simp [sheetStep]

/-- Processing sheets whose names differ from `nm` leaves the `sheetData` and
`validationErrors` entries of `nm` untouched. -/
theorem foldl_sheetStep_preserved (cfg : Config) (now : Instant) :
    ∀ (sheets : List Worksheet) (acc : UploadResult) (nm : String),
      nm ∉ sheets.map Worksheet.name →
      lookupAssoc (sheets.foldl (sheetStep cfg now) acc).sheetData nm =
          lookupAssoc acc.sheetData nm ∧
        lookupAssoc (sheets.foldl (sheetStep cfg now) acc).validationErrors nm =
          lookupAssoc acc.validationErrors nm := by
  intro sheets
  induction sheets with
  | nil => intro acc nm _; exact ⟨rfl, rfl⟩
  | cons hd tl ih =>
    intro acc nm hnm
    have hne : nm ≠ hd.name := fun hh => hnm (by simp [hh])
    have htl : nm ∉ tl.map Worksheet.name := fun hh => hnm (by simp [hh])
    rw [List.foldl_cons]
    refine ⟨((ih _ nm htl).1).trans ?_, ((ih _ nm htl).2).trans ?_⟩
    · simp only [sheetStep]
      cases hde : (processSheet cfg now hd).data with
      | none => rfl
      | some d => exact lookupAssoc_objUpsert_other acc.sheetData hd.name nm d hne
    · simp only [sheetStep]
      split
      · rfl
      · exact lookupAssoc_objUpsert_other acc.validationErrors hd.name nm _ hne

/-- Characterisation of the upload fold at a worksheet of the workbook (names
assumed pairwise distinct, as ExcelJS enforces for workbook sheets): the
`sheetData` entry of the sheet is exactly its outcome's data, and its
`validationErrors` entry exists iff the outcome has at least one error. -/
theorem lookup_foldl_sheetStep (cfg : Config) (now : Instant) :
    ∀ (sheets : List Worksheet) (acc : UploadResult) (ws : Worksheet),
      ws ∈ sheets →
      (sheets.map Worksheet.name).Nodup →
      lookupAssoc acc.sheetData ws.name = none →
      lookupAssoc acc.validationErrors ws.name = none →
      lookupAssoc (sheets.foldl (sheetStep cfg now) acc).sheetData ws.name =
          (processSheet cfg now ws).data ∧
        lookupAssoc (sheets.foldl (sheetStep cfg now) acc).validationErrors ws.name =
          (if (processSheet cfg now ws).errors.isEmpty then none
           else some (processSheet cfg now ws).errors) := by
  intro sheets
  induction sheets with
  | nil => intro acc ws hmem; exact absurd hmem (List.not_mem_nil _)
  | cons hd tl ih =>
    intro acc ws hmem hnd hdat herr
    rw [List.map_cons] at hnd
    have hhd : hd.name ∉ tl.map Worksheet.name := (List.nodup_cons.mp hnd).1
    have hndtl : (tl.map Worksheet.name).Nodup := (List.nodup_cons.mp hnd).2
    rw [List.foldl_cons]
    rcases List.mem_cons.mp hmem with rfl | htl
    · have hpres := foldl_sheetStep_preserved cfg now tl (sheetStep cfg now acc ws) ws.name hhd
      refine ⟨hpres.1.trans ?_, hpres.2.trans ?_⟩
      · simp only [sheetStep]
        cases hde : (processSheet cfg now ws).data with
        | none => exact hdat
        | some d => exact lookupAssoc_objUpsert_self acc.sheetData ws.name d
      · simp only [sheetStep]
        split
        · exact herr
        · exact lookupAssoc_objUpsert_self acc.validationErrors ws.name _
    · have hne : ws.name ≠ hd.name := by
        intro hh
        exact hhd (hh ▸ List.mem_map.mpr ⟨ws, htl, rfl⟩)
      refine ih (sheetStep cfg now acc hd) ws htl hndtl ?_ ?_
      · simp only [sheetStep]
        cases (processSheet cfg now hd).data with
        | none => exact hdat
        | some d =>
          rw [lookupAssoc_objUpsert_other acc.sheetData hd.name ws.name d hne]
          exact hdat
      · simp only [sheetStep]
        split
        · exact herr
        · rw [lookupAssoc_objUpsert_other acc.validationErrors hd.name ws.name _ hne]
          exact herr

/-- C4: for a workbook with distinct sheet names, a sheet whose header lacks
at least one `columnMapping` key gets exactly one row-1 error listing all
missing columns comma-joined in `validationErrors`, and no entry at all in
`sheetData` (its data rows are not processed). -/
theorem upload_missing_columns
    (cfg : Config) (now : Instant) (sheets : List Worksheet) (ws : Worksheet)
    (hnd : (sheets.map Worksheet.name).Nodup)
    (hmem : ws ∈ sheets)
    (hmiss : (missingColumns cfg (headersOf (ws.rows.headD []))).isEmpty = false) :
    lookupAssoc (processUpload cfg now sheets).validationErrors ws.name =
      some [ErrorDescriptor.mk 1 ("Missing required columns: " ++
        String.intercalate ", " (missingColumns cfg (headersOf (ws.rows.headD []))))] ∧
    lookupAssoc (processUpload cfg now sheets).sheetData ws.name = none := by
  have hps : processSheet cfg now ws =
      SheetOutcome.mk none
        [ErrorDescriptor.mk 1 ("Missing required columns: " ++
          String.intercalate ", " (missingColumns cfg (headersOf (ws.rows.headD []))))] := by
    simp only [processSheet]
    rw [hmiss]
    simp
  have h := lookup_foldl_sheetStep cfg now sheets (UploadResult.mk [] [] []) ws hmem hnd rfl rfl
  rw [hps] at h
  exact ⟨h.2, h.1⟩

/-- Witness for C4: a one-sheet workbook whose header has only `Name`. -/
theorem upload_missing_columns_witness :
    lookupAssoc (processUpload defaultConfig (Instant.mk 0 2024)
        [Worksheet.mk "S1" [[some (Value.str "Name")]]]).validationErrors "S1" =
      some [ErrorDescriptor.mk 1 ("Missing required columns: " ++
        String.intercalate ", " (missingColumns defaultConfig
          (headersOf ((Worksheet.mk "S1" [[some (Value.str "Name")]]).rows.headD []))))] ∧
    lookupAssoc (processUpload defaultConfig (Instant.mk 0 2024)
        [Worksheet.mk "S1" [[some (Value.str "Name")]]]).sheetData "S1" = none :=
  upload_missing_columns defaultConfig (Instant.mk 0 2024)
    [Worksheet.mk "S1" [[some (Value.str "Name")]]]
    (Worksheet.mk "S1" [[some (Value.str "Name")]])
    (by decide) (by decide) (by decide)

/-- C9: for a workbook with distinct sheet names, a sheet's name is a key of
the output `validationErrors` object iff at least one error was recorded for
that sheet; a sheet with zero errors is absent rather than mapped to an
empty list. -/
theorem validationErrors_keys_iff
    (cfg : Config) (now : Instant) (sheets : List Worksheet) (ws : Worksheet)
    (hnd : (sheets.map Worksheet.name).Nodup)
    (hmem : ws ∈ sheets) :
    ws.name ∈ (processUpload cfg now sheets).validationErrors.map (fun p => p.1) ↔
      (processSheet cfg now ws).errors ≠ [] := by
  have h := (lookup_foldl_sheetStep cfg now sheets (UploadResult.mk [] [] []) ws hmem hnd rfl rfl).2
  rw [mem_keys_iff_lookupAssoc]
  unfold processUpload
  rw [h]
  cases hemp : (processSheet cfg now ws).errors.isEmpty with
  | true => simp [List.isEmpty_iff.mp hemp]
  | false =>
    have hne : (processSheet cfg now ws).errors ≠ [] := by
      intro hh
      rw [hh] at hemp
      simp at hemp
    simp [hne]

/-- Witness for C9: a workbook whose single sheet has an invalid row gets a
`validationErrors` entry. -/
theorem validationErrors_keys_iff_witness :
    "S1" ∈ (processUpload defaultConfig (Instant.mk 0 2024)
        [Worksheet.mk "S1"
          [[some (Value.str "Name"), some (Value.str "Amount"), some (Value.str "Date"),
            some (Value.str "Verified")],
           [some (Value.str "Bob"), some (Value.num (-1)), some (Value.str "2024-01-10"),
            some (Value.str "Maybe")]]]).validationErrors.map (fun p => p.1) :=
  (validationErrors_keys_iff defaultConfig (Instant.mk 0 2024)
    [Worksheet.mk "S1"
      [[some (Value.str "Name"), some (Value.str "Amount"), some (Value.str "Date"),
        some (Value.str "Verified")],
       [some (Value.str "Bob"), some (Value.num (-1)), some (Value.str "2024-01-10"),
        some (Value.str "Maybe")]]]
    (Worksheet.mk "S1"
      [[some (Value.str "Name"), some (Value.str "Amount"), some (Value.str "Date"),
        some (Value.str "Verified")],
       [some (Value.str "Bob"), some (Value.num (-1)), some (Value.str "2024-01-10"),
        some (Value.str "Maybe")]])
    (by decide) (by decide)).mpr (by decide)

/-- Keys present in `sheetData` after the upload fold were either already in
the accumulator or are names of processed sheets. -/
theorem foldl_sheetStep_data_keys (cfg : Config) (now : Instant) :
    ∀ (sheets : List Worksheet) (acc : UploadResult) (k : String),
      k ∈ (sheets.foldl (sheetStep cfg now) acc).sheetData.map (fun p => p.1) →
      k ∈ acc.sheetData.map (fun p => p.1) ∨ k ∈ sheets.map Worksheet.name := by
  intro sheets
  induction sheets with
  | nil => intro acc k hk; exact Or.inl hk
  | cons hd tl ih =>
    intro acc k hk
    rw [List.foldl_cons] at hk
    rcases ih _ k hk with h1 | h2
    · simp only [sheetStep] at h1
      cases hde : (processSheet cfg now hd).data with
      | none =>
        rw [hde] at h1
        exact Or.inl h1
      | some d =>
        rw [hde] at h1
        have := List.mem_toFinset.mpr h1
        rw [map_fst_objUpsert] at this
        rcases Finset.mem_insert.mp this with rfl | hin
        · exact Or.inr (by simp)
        · exact Or.inl (List.mem_toFinset.mp hin)
    · exact Or.inr (List.mem_cons_of_mem _ h2)

/-- C10: the output `sheetNames` always lists every sheet of the workbook in
iteration order — sheets skipped for missing header columns included — while
`sheetData` only has keys among those names and, as the concrete one-sheet
workbook with an empty header shows, can be a strict subset of them: a
caller cannot assume `sheetData` has an entry for every listed name. -/
theorem sheetNames_complete (cfg : Config) (now : Instant) (sheets : List Worksheet) :
    (processUpload cfg now sheets).sheetNames = sheets.map Worksheet.name ∧
    (∀ k ∈ (processUpload cfg now sheets).sheetData.map (fun p => p.1),
      k ∈ sheets.map Worksheet.name) ∧
    (processUpload defaultConfig (Instant.mk 0 2024)
        [Worksheet.mk "Sheet1" [[]]]).sheetNames = ["Sheet1"] ∧
    (processUpload defaultConfig (Instant.mk 0 2024)
        [Worksheet.mk "Sheet1" [[]]]).sheetData.map (fun p => p.1) = [] := by
    refine ⟨?_, ?_, by decide, by decide⟩
    · unfold processUpload
      rw [foldl_sheetStep_names]
      rfl
    · intro k hk
      unfold processUpload at hk
      rcases foldl_sheetStep_data_keys cfg now sheets _ k hk with h1 | h2
      · exact absurd h1 (List.not_mem_nil _)
      · exact h2

/-- Witness for C10 on a concrete two-sheet workbook. -/
theorem sheetNames_complete_witness :
    (processUpload defaultConfig (Instant.mk 0 2024)
        [Worksheet.mk "A" [[]], Worksheet.mk "B" [[]]]).sheetNames = ["A", "B"] :=
  (sheetNames_complete defaultConfig (Instant.mk 0 2024)
    [Worksheet.mk "A" [[]], Worksheet.mk "B" [[]]]).1

/-- C3: the import filter equals its specification — a mapped row at 0-based
index `i` is kept iff spreadsheet row number `i + 2` does not occur among the
sheet's error rows and the row's `name` field is truthy — and on the spec's
scenario (three rows, an error at row 3, an empty name at index 2) it keeps
only the row at index 0. -/
theorem selectRows_refines_spec (rows : List Obj) (errs : List ErrorDescriptor) :
    selectRows rows errs = selectImportableSpec rows errs ∧
    selectRows [[("name", Value.str "Alice")], [("name", Value.str "Bob")],
        [("name", Value.str "")]] [ErrorDescriptor.mk 3 "x"] =
      [[("name", Value.str "Alice")]] := by
  have hiff : ∀ p : Nat × Obj,
      ((!((errs.map ErrorDescriptor.row).dedup.contains (p.1 + 2)) &&
        truthy (objGet p.2 "name")) = true) ↔
      ((p.1 + 2) ∉ errs.map ErrorDescriptor.row ∧ truthy (objGet p.2 "name") = true) := by
    intro p
    simp [List.contains, List.elem_iff, List.mem_dedup]
  constructor
  · simp only [selectRows, selectImportableSpec]
    generalize rows.enum = l
    induction l with
    | nil => rfl
    | cons hd tl ih =>
      rw [List.filter_cons, List.filterMap_cons]
      by_cases hP : ((hd.1 + 2) ∉ errs.map ErrorDescriptor.row ∧
          truthy (objGet hd.2 "name") = true)
      · rw [if_pos ((hiff hd).mpr hP), if_pos hP, List.map_cons, ih]
      · rw [if_neg (fun hb => hP ((hiff hd).mp hb)), if_neg hP, ih]
  · decide
